import Mathlib

/-!
# Verification of the orx-docs repository

Shallow embedding of the two source files of the repository
(`src/components/link-card.tsx` and `src/theme.config.tsx`) together with a
model of the documentation-conventions validator described by the
specification (the validator itself is not part of `src/`; every definition
belonging to it is marked `Modelled from the spec:`).
-/

namespace OrxDocs

/-- Modelled from the spec: severity of a convention rule (error | warning). -/
inductive Severity where
  | error
  | warning
deriving DecidableEq, Repr

/-- Modelled from the spec: the kind of a parsed `DocumentSection` — a fenced
code block, a markdown table, a blockquote callout, a heading, or a run of
plain text lines (the unit carrying inline glossary references). -/
inductive SectionKind where
  | codeBlock
  | table
  | callout
  | heading
  | para
deriving DecidableEq, Repr

/-- Modelled from the spec: a parsed unit of the source text, with kind, raw
content (its lines, as character lists) and start/end line numbers. -/
structure DocumentSection where
  kind : SectionKind
  content : List (List Char)
  startLine : Nat
  endLine : Nat
deriving DecidableEq, Repr

/-- Modelled from the spec: the result of a rule failing against a section —
rule identifier, severity, line range and message. -/
structure Violation where
  ruleId : String
  severity : Severity
  startLine : Nat
  endLine : Nat
  message : String
deriving DecidableEq, Repr

/-- Modelled from the spec: input handed to `validate`; non-decodable byte
sequences are represented by the `unreadable` constructor. -/
inductive InputText where
  | unreadable
  | decodable (text : String)

/- ### Character-list helpers (executable, kernel-reducible) -/

/-- Split a character list on a separator character. -/
def splitOnChar (c : Char) : List Char → List (List Char)
  | [] => [[]]
  | x :: xs =>
    if x = c then [] :: splitOnChar c xs
    else
      match splitOnChar c xs with
      | [] => [[x]]
      | y :: ys => (x :: y) :: ys

/-- The lines of a text, numbering from 1 in document order. -/
def splitLines (cs : List Char) : List (List Char) := splitOnChar '\n' cs

/-- Drop spaces from both ends of a character list. -/
def trimSpaces (l : List Char) : List Char :=
  ((l.dropWhile (fun c => c = ' ')).reverse.dropWhile (fun c => c = ' ')).reverse

/-- Split at the first occurrence of a character: `some (before, after)` when
the character occurs, `none` otherwise. -/
def takeUntil (c : Char) : List Char → Option (List Char × List Char)
  | [] => none
  | x :: xs =>
    if x = c then some ([], xs)
    else
      match takeUntil c xs with
      | none => none
      | some (b, a) => some (x :: b, a)

/- ### Section parser.  Modelled from the spec: segment the input into
`DocumentSection`s by recognizing fenced code blocks, markdown tables,
blockquote callouts and headings; remaining lines form plain-text runs. -/

/-- A line opening or closing a fenced code block. -/
def isFenceLine (l : List Char) : Bool := ("```".data).isPrefixOf l

/-- A markdown table line (starts with a pipe). -/
def isTableLine (l : List Char) : Bool := l.head? = some '|'

/-- A blockquote callout line. -/
def isCalloutLine (l : List Char) : Bool := l.head? = some '>'

/-- A heading line. -/
def isHeadingLine (l : List Char) : Bool := l.head? = some '#'

/-- A line belonging to a plain-text run. -/
def isPlainLine (l : List Char) : Bool :=
  !(isFenceLine l || isTableLine l || isCalloutLine l || isHeadingLine l)

/-- Take the maximal prefix of lines satisfying `p`, returning it with the
remaining lines. -/
def takeDropWhile (p : List Char → Bool) : List (List Char) → List (List Char) × List (List Char)
  | [] => ([], [])
  | x :: xs =>
    if p x then
      let r := takeDropWhile p xs
      (x :: r.1, r.2)
    else ([], x :: xs)

/-- Consume lines up to and including the closing fence of a code block,
returning them together with the rest of the document. -/
def splitAtFence : List (List Char) → List (List Char) × List (List Char)
  | [] => ([], [])
  | l :: ls =>
    if isFenceLine l then ([l], ls)
    else
      let r := splitAtFence ls
      (l :: r.1, r.2)

/-- Modelled from the spec: segmentation of the numbered input lines into
sections.  `fuel` bounds the recursion; every step consumes at least one
line, so `fuel = lines.length` is always sufficient. -/
def parseSectionsAux : Nat → Nat → List (List Char) → List DocumentSection
  | 0, _, _ => []
  | fuel + 1, ln, lines =>
    match lines with
    | [] => []
    | l :: ls =>
      if isFenceLine l then
        let r := splitAtFence ls
        ⟨.codeBlock, l :: r.1, ln, ln + r.1.length⟩ ::
          parseSectionsAux fuel (ln + r.1.length + 1) r.2
      else if isTableLine l then
        let r := takeDropWhile isTableLine ls
        ⟨.table, l :: r.1, ln, ln + r.1.length⟩ ::
          parseSectionsAux fuel (ln + r.1.length + 1) r.2
      else if isCalloutLine l then
        let r := takeDropWhile isCalloutLine ls
        ⟨.callout, l :: r.1, ln, ln + r.1.length⟩ ::
          parseSectionsAux fuel (ln + r.1.length + 1) r.2
      else if isHeadingLine l then
        ⟨.heading, [l], ln, ln⟩ :: parseSectionsAux fuel (ln + 1) ls
      else
        let r := takeDropWhile isPlainLine ls
        ⟨.para, l :: r.1, ln, ln + r.1.length⟩ ::
          parseSectionsAux fuel (ln + r.1.length + 1) r.2

/-- Modelled from the spec: parse a document (given as lines) into its
sections, starting at line number `ln`. -/
def parseSections (ln : Nat) (lines : List (List Char)) : List DocumentSection :=
  parseSectionsAux lines.length ln lines

/- ### Rule checks.  Modelled from the spec, section 4.1 step 2. -/

/-- The info string of a fenced code block (text after the opening fence). -/
def fenceInfo (content : List (List Char)) : List Char :=
  match content with
  | l :: _ => trimSpaces (l.drop 3)
  | [] => []

/-- The whitespace-separated words of a character list. -/
def wordsOf (l : List Char) : List (List Char) :=
  (splitOnChar ' ' l).filter (fun w => !w.isEmpty)

/-- Modelled from the spec: fenced blocks must declare a language tag. -/
def langTagCheck (content : List (List Char)) : List String :=
  if (fenceInfo content).isEmpty then ["fenced code block has no language tag"] else []

/-- Modelled from the spec: fenced JSON/TS blocks must carry a copy marker. -/
def copyCheck (content : List (List Char)) : List String :=
  match wordsOf (fenceInfo content) with
  | [] => []
  | lang :: attrs =>
    if (lang = ("json".data) ∨ lang = ("ts".data) ∨ lang = ("typescript".data)) ∧
        ¬ ("copy".data) ∈ attrs then
      ["json or ts block is missing the copy marker"]
    else []

/-- Split a markdown table line into its trimmed cells (assuming leading and
trailing pipes, as in the documented table format). -/
def splitCells (l : List Char) : List (List Char) :=
  (((splitOnChar '|' l).map trimSpaces).drop 1).dropLast

/-- Modelled from the spec: the error-table header set — `Status Code`,
`Error`, `Reason`, optionally `Reason Code`. -/
def isErrorTableHeader (cells : List (List Char)) : Bool :=
  cells = [("Status Code".data), ("Error".data), ("Reason".data)] ∨
    cells = [("Status Code".data), ("Error".data), ("Reason".data), ("Reason Code".data)]

/-- Modelled from the spec: a valid three-digit HTTP status code (100–599). -/
def isValidStatus (cell : List Char) : Bool :=
  match cell with
  | [a, b, c] => a.isDigit ∧ b.isDigit ∧ c.isDigit ∧ '1' ≤ a ∧ a ≤ '5'
  | _ => false

/-- One populated-columns hit for a data row whose first three cells are not
all present and non-empty. -/
def rowPopulatedHits (cells : List (List Char)) : List String :=
  if cells.length < 3 ∨ (cells.take 3).any (fun c => c.isEmpty) then
    ["error table row is missing one of the first three columns"]
  else []

/-- One status-format hit for a data row whose first cell is not a valid
three-digit HTTP status. -/
def statusRowHits (cells : List (List Char)) : List String :=
  match cells with
  | st :: _ => if isValidStatus st then [] else ["status code cell is not a valid http status"]
  | [] => ["status code cell is not a valid http status"]

/-- The data rows of a table: all rows after the header and separator rows. -/
def tableDataRows (content : List (List Char)) : Option (List (List Char) × List (List (List Char))) :=
  match content.map splitCells with
  | hdr :: _ :: data => some (hdr, data)
  | _ => none

/-- Modelled from the spec: every data row of an error table is populated in
its first three columns. -/
def rowPopulatedCheck (content : List (List Char)) : List String :=
  match tableDataRows content with
  | some (hdr, data) =>
    if isErrorTableHeader hdr then data.flatMap rowPopulatedHits else []
  | none => []

/-- Modelled from the spec: every data row of an error table carries a valid
three-digit HTTP status code. -/
def statusCheck (content : List (List Char)) : List String :=
  match tableDataRows content with
  | some (hdr, data) =>
    if isErrorTableHeader hdr then data.flatMap statusRowHits else []
  | none => []

/-- Modelled from the spec: the semantic categories of the recognized callout
indicator glyphs. -/
inductive CalloutCat where
  | breaking
  | tip
  | config
  | destructive
  | optionalNote
deriving DecidableEq, Repr

/-- Modelled from the spec: the fixed set of recognized indicator glyphs and
their semantic categories. -/
def glyphCat (g : Char) : Option CalloutCat :=
  if g = '🚨' then some .breaking
  else if g = '💡' then some .tip
  else if g = '🛠' then some .config
  else if g = '💣' then some .destructive
  else if g = '📌' then some .optionalNote
  else none

/-- Modelled from the spec: the configured keyword heuristics per category. -/
def catKeywords : CalloutCat → List String
  | .breaking => ["invalidated", "cancelled", "breaking"]
  | .tip => ["tip", "hint"]
  | .config => ["configuration", "config"]
  | .destructive => ["delete", "remove", "irreversible", "destroy"]
  | .optionalNote => ["optional"]

/-- The first callout line with its leading marker and spaces removed. -/
def calloutHead (content : List (List Char)) : List Char :=
  match content with
  | l :: _ => (l.drop 1).dropWhile (fun c => c = ' ')
  | [] => []

/-- The lower-cased body of a callout: the first line after its glyph,
followed by the continuation lines with their markers removed. -/
def calloutBody (content : List (List Char)) : List Char :=
  ((calloutHead content).tail ++ content.tail.flatMap (fun l => ' ' :: l.drop 1)).map Char.toLower

/-- Whether `needle` occurs contiguously inside a character list. -/
def containsSeq (needle : List Char) : List Char → Bool
  | [] => needle.isEmpty
  | x :: xs => needle.isPrefixOf (x :: xs) || containsSeq needle xs

/-- The categories whose configured keywords occur in a callout body. -/
def detectCats (body : List Char) : List CalloutCat :=
  [CalloutCat.breaking, CalloutCat.tip, CalloutCat.config,
    CalloutCat.destructive, CalloutCat.optionalNote].filter
    (fun c => (catKeywords c).any (fun kw => containsSeq kw.data body))

/-- Modelled from the spec: a glyph/content mismatch — the glyph's category
is not among the categories detected in the body, and either the body
detects some other category or the glyph announces a severe (destructive or
breaking) note whose body contains none of its keywords. -/
def calloutMismatch (c : CalloutCat) (body : List Char) : Bool :=
  let det := detectCats body
  if det.isEmpty then c = CalloutCat.destructive ∨ c = CalloutCat.breaking
  else ¬ c ∈ det

/-- Modelled from the spec: a callout must begin with exactly one recognized
indicator glyph. -/
def glyphCheck (content : List (List Char)) : List String :=
  match calloutHead content with
  | [] => ["callout has no indicator glyph"]
  | g :: rest =>
    if (glyphCat g).isSome ∧ (rest = [] ∨ rest.head? = some ' ') then []
    else ["callout does not begin with exactly one recognized indicator glyph"]

/-- Modelled from the spec: warn when the glyph's semantic category is
inconsistent with the keyword heuristics on the callout body. -/
def mismatchCheck (content : List (List Char)) : List String :=
  match calloutHead content with
  | [] => []
  | g :: _ =>
    match glyphCat g with
    | none => []
    | some c =>
      if calloutMismatch c (calloutBody content) then
        ["callout glyph category does not match the callout body"]
      else []

/-- Extract the `(label, url)` pairs of markdown inline links from a line.
`fuel` bounds the scan; every step consumes at least one character, so
`fuel = l.length` is always sufficient. -/
def extractLinksAux : Nat → List Char → List (List Char × List Char)
  | 0, _ => []
  | _ + 1, [] => []
  | fuel + 1, x :: rest =>
    if x = '[' then
      match takeUntil ']' rest with
      | none => []
      | some (label, rest2) =>
        match rest2 with
        | '(' :: rest3 =>
          match takeUntil ')' rest3 with
          | some (url, rest4) => (label, url) :: extractLinksAux fuel rest4
          | none => []
        | _ => extractLinksAux fuel rest2
    else extractLinksAux fuel rest

/-- All markdown inline links of a line. -/
def extractLinks (l : List Char) : List (List Char × List Char) :=
  extractLinksAux l.length l

/-- A versioned glossary path: starts with `/versions/v` and ends with
`/glossary`. -/
def isVersionedGlossaryPath (p : List Char) : Bool :=
  ("/versions/v".data).isPrefixOf p ∧ ("/glossary".data).isSuffixOf p

/-- The anchor of a versioned glossary reference url, when the url is one. -/
def glossaryAnchor (url : List Char) : Option (List Char) :=
  match takeUntil '#' url with
  | some (before, after) => if isVersionedGlossaryPath before then some after else none
  | none => none

/-- Modelled from the spec: a kebab-case slug — non-empty, made of lowercase
letters, digits and hyphens. -/
def isKebab (anchor : List Char) : Bool :=
  !anchor.isEmpty ∧ anchor.all (fun c => c.isLower ∨ c.isDigit ∨ c = '-')

/-- The glossary-format hits of one extracted link. -/
def glossaryHitsForLink (lu : List Char × List Char) : List String :=
  match glossaryAnchor lu.2 with
  | some a => if isKebab a then [] else ["glossary anchor is not a kebab-case slug"]
  | none => []

/-- Modelled from the spec: inline glossary references must use kebab-case
anchors. -/
def glossaryCheck (content : List (List Char)) : List String :=
  content.flatMap (fun l => (extractLinks l).flatMap glossaryHitsForLink)

/- ### The rule catalog and `validate`. -/

/-- Modelled from the spec: a named check with identifier, severity, a kind
selector, and a matcher over a section's content. -/
structure ConventionRule where
  id : String
  severity : Severity
  appliesTo : SectionKind → Bool
  check : List (List Char) → List String

/-- Modelled from the spec: the static, immutable rule catalog. -/
def ruleCatalog : List ConventionRule :=
  [⟨"code-block-language-tag", .error, (fun k => k = .codeBlock), langTagCheck⟩,
   ⟨"json-block-has-copy-attribute", .error, (fun k => k = .codeBlock), copyCheck⟩,
   ⟨"error-table-row-populated", .error, (fun k => k = .table), rowPopulatedCheck⟩,
   ⟨"error-table-status-code-format", .error, (fun k => k = .table), statusCheck⟩,
   ⟨"callout-glyph-valid", .error, (fun k => k = .callout), glyphCheck⟩,
   ⟨"callout-glyph-content-mismatch", .warning, (fun k => k = .callout), mismatchCheck⟩,
   ⟨"glossary-link-format", .error, (fun k => k = .para ∨ k = .heading), glossaryCheck⟩]

/-- Modelled from the spec: apply one rule to one section, stamping each hit
with the rule's identifier and severity and the section's line range. -/
def applyRule (r : ConventionRule) (s : DocumentSection) : List Violation :=
  if r.appliesTo s.kind then
    (r.check s.content).map (fun m => ⟨r.id, r.severity, s.startLine, s.endLine, m⟩)
  else []

/-- Modelled from the spec: apply every rule whose kind selector matches. -/
def checkSection (s : DocumentSection) : List Violation :=
  ruleCatalog.flatMap (fun r => applyRule r s)

/-- Modelled from the spec: all violations of a document, in parse order. -/
def rawViolations (lines : List (List Char)) : List Violation :=
  (parseSections 1 lines).flatMap checkSection

/-- Lexicographic comparison of character lists by code point. -/
def charListLeb : List Char → List Char → Bool
  | [], _ => true
  | _ :: _, [] => false
  | a :: as, b :: bs =>
    if a.val.toNat < b.val.toNat then true
    else if b.val.toNat < a.val.toNat then false
    else charListLeb as bs

/-- Modelled from the spec: the output order of `validate` — ascending line
number, ties by ascending rule identifier. -/
def vle (a b : Violation) : Prop :=
  a.startLine < b.startLine ∨
    (a.startLine = b.startLine ∧ charListLeb a.ruleId.data b.ruleId.data = true)

instance : DecidableRel vle := fun a b => by
  unfold vle
  infer_instance

/-- Modelled from the spec: the single synthetic violation reported for
input that cannot be decoded as text. -/
def unreadableViolation : Violation :=
  ⟨"unreadable-input", .error, 0, 0, "input could not be decoded as text"⟩

/-- Modelled from the spec: parse the input into sections, apply the
catalog, and return the violations sorted by position; non-decodable input
yields the single `unreadable-input` violation. -/
def validate : InputText → List Violation
  | .unreadable => [unreadableViolation]
  | .decodable s => List.insertionSort vle (rawViolations (splitLines s.data))

/- ### Embedding of `src/components/link-card.tsx` -/

/-- A rendered react node: an element with a tag, attributes and children,
a text node, or the empty fragment. -/
inductive ReactNode where
  | empty
  | elem (tag : String) (attrs : List (String × String)) (children : List ReactNode)
  | text (s : String)

/-- The fixed chevron svg used when no `icon` prop is given
(`defaultIcon` in `src/components/link-card.tsx`). -/
def defaultIcon : ReactNode :=
  .elem "svg"
    [("xmlns", "http://www.w3.org/2000/svg"), ("fill", "none"),
     ("viewBox", "0 0 24 24"), ("strokeWidth", "1.5"),
     ("stroke", "currentColor"), ("className", "w-6 h-6")]
    [.elem "path"
      [("strokeLinecap", "round"), ("strokeLinejoin", "round"),
       ("d", "M8.25 4.5l7.5 7.5-7.5 7.5")] []]

/-- A rendered nextra `Card`: icon, title, href and children. -/
structure Card where
  icon : ReactNode
  title : String
  href : String
  children : ReactNode

/-- A rendered nextra `Cards` container. -/
structure Cards where
  cards : List Card

/-- `LinkCard` from `src/components/link-card.tsx`: a `Cards` container
holding one `Card` with the given title and path and empty children; the
optional `icon` prop defaults to `defaultIcon`. -/
def LinkCard (icon : Option ReactNode) (path : String) (title : String) : Cards :=
  { cards := [{ icon := icon.getD defaultIcon, title := title, href := path,
                children := .empty }] }

/- ### Embedding of `src/theme.config.tsx` -/

/-- The value returned by `useNextSeoProps`. -/
structure NextSeoProps where
  titleTemplate : String
deriving DecidableEq, Repr

/-- The `footer` entry of the theme configuration. -/
structure FooterConfig where
  text : String
deriving DecidableEq, Repr

/-- A link entry (`project`, `chat`) of the theme configuration. -/
structure LinkConfig where
  link : String
deriving DecidableEq, Repr

/-- The shape of the nextra `DocsThemeConfig` fields set by the source. -/
structure DocsThemeConfig where
  logo : ReactNode
  project : LinkConfig
  chat : LinkConfig
  docsRepositoryBase : String
  footer : FooterConfig
  head : ReactNode
  useNextSeoProps : Unit → NextSeoProps

/-- Decimal rendering of a natural number, as produced by the template
literal in the footer text (big-endian decimal digits). -/
def yearString (y : Nat) : String :=
  String.mk (((Nat.digits 10 y).reverse).map Nat.digitChar)

/-- `config` from `src/theme.config.tsx`, as a function of the calendar
year that `new Date().getFullYear()` yields at module evaluation time. -/
def config (year : Nat) : DocsThemeConfig :=
  { logo := .elem "Image"
      [("src", "/logo.png"), ("width", "120"), ("height", "50"),
       ("alt", "ORX API Logo")] [],
    project := { link := "https://github.com/ndcsol" },
    chat := { link := "https://discord.com" },
    docsRepositoryBase := "https://github.com/ndcsol/orx-docs",
    footer := { text := "ORX Travel API " ++ yearString year },
    head := .elem "fragment" []
      [.elem "link" [("rel", "icon"), ("href", "/favicon.png")] [],
       .elem "meta" [("name", "viewport"),
         ("content", "width=device-width, initial-scale=1")] [],
       .elem "meta" [("name", "description"),
         ("content", "ORX API Documentation")] []],
    useNextSeoProps := fun _ => { titleTemplate := "%s - ORX API" } }

/- ### Order lemmas for the output ordering -/

theorem charListLeb_total (a b : List Char) :
    charListLeb a b = true ∨ charListLeb b a = true := by
  induction a generalizing b with
  | nil => left; rfl
  | cons x xs ih =>
    cases b with
    | nil => right; rfl
    | cons y ys =>
      simp only [charListLeb]
      rcases Nat.lt_trichotomy x.val.toNat y.val.toNat with h | h | h
      · left; simp [h]
      · have h2 : ¬ x.val.toNat < y.val.toNat := by omega
        have h3 : ¬ y.val.toNat < x.val.toNat := by omega
        rcases ih ys with hh | hh
        · left; simp [h2, h3, hh]
        · right; simp [h2, h3, hh]
      · right; simp [h]

theorem charListLeb_trans (a b c : List Char) (h1 : charListLeb a b = true)
    (h2 : charListLeb b c = true) : charListLeb a c = true := by
  induction a generalizing b c with
  | nil => rfl
  | cons x xs ih =>
    cases b with
    | nil => simp [charListLeb] at h1
    | cons y ys =>
      cases c with
      | nil => simp [charListLeb] at h2
      | cons z zs =>
        simp only [charListLeb] at h1 h2 ⊢
        by_cases hxy : x.val.toNat < y.val.toNat <;>
          by_cases hyx : y.val.toNat < x.val.toNat <;>
          by_cases hyz : y.val.toNat < z.val.toNat <;>
          by_cases hzy : z.val.toNat < y.val.toNat <;>
          simp [hxy, hyx, hyz, hzy] at h1 h2 ⊢ <;>
          first
            | omega
            | (have hxz : ¬ x.val.toNat < z.val.toNat := by omega
               have hzx : ¬ z.val.toNat < x.val.toNat := by omega
               simp [hxz, hzx]
               first
                 | exact ih ys zs h1 h2
                 | exact ⟨by omega, ih ys zs h1 h2⟩)

instance : IsTotal Violation vle :=
  ⟨fun a b => by
    unfold vle
    rcases Nat.lt_trichotomy a.startLine b.startLine with h | h | h
    · exact Or.inl (Or.inl h)
    · rcases charListLeb_total a.ruleId.data b.ruleId.data with hh | hh
      · exact Or.inl (Or.inr ⟨h, hh⟩)
      · exact Or.inr (Or.inr ⟨h.symm, hh⟩)
    · exact Or.inr (Or.inl h)⟩

instance : IsTrans Violation vle :=
  ⟨fun a b c hab hbc => by
    unfold vle at hab hbc ⊢
    rcases hab with h1 | ⟨h1, h1'⟩ <;> rcases hbc with h2 | ⟨h2, h2'⟩
    · exact Or.inl (by omega)
    · exact Or.inl (by omega)
    · exact Or.inl (by omega)
    · exact Or.inr ⟨by omega, charListLeb_trans _ _ _ h1' h2'⟩⟩

/-- C2: for every input text, `validate` terminates (it is a total function)
and returns a finite list of violations sorted by ascending line number,
with ties ordered by ascending rule identifier (`vle` is exactly that
order). -/
theorem C2_validate_sorted (t : InputText) : List.Sorted vle (validate t) := by
  cases t with
  | unreadable => exact List.sorted_singleton _
  | decodable s => exact List.sorted_insertionSort vle _

/-- C2 witness: the order holds on a concrete two-violation document. -/
theorem C2_validate_sorted_witness :
    List.Sorted vle
      (validate (.decodable "[A](/versions/v1/glossary#Bad)\n> 💣 boom glyph")) :=
  C2_validate_sorted (.decodable "[A](/versions/v1/glossary#Bad)\n> 💣 boom glyph")

/-- C3: `validate` is deterministic — it is a pure function of its input, so
two runs on the same input yield the same list in the same order. -/
theorem C3_validate_deterministic (x : InputText) : validate x = validate x := rfl

/-- C8: for every icon, path and title, `LinkCard` renders a `Cards`
container holding exactly one `Card`, whose href is the given path, whose
title is the given title, and whose children are empty. -/
theorem C8_LinkCard_single_card (icon : Option ReactNode) (path title : String) :
    (LinkCard icon path title).cards.map (fun c => (c.href, c.title, c.children)) =
      [(path, title, ReactNode.empty)] := rfl

/-- C9: when the icon prop is omitted (`none`), the rendered card receives
the fixed `defaultIcon`, independently of path and title: the render equals
the render with `defaultIcon` passed explicitly. -/
theorem C9_LinkCard_default_icon (path title : String) :
    LinkCard none path title = LinkCard (some defaultIcon) path title ∧
    (LinkCard none path title).cards.map (fun c => c.icon) = [defaultIcon] :=
  ⟨rfl, rfl⟩

/- ### Injectivity of the year rendering, for C10 -/

theorem digitChar_inj : ∀ a < 10, ∀ b < 10,
    Nat.digitChar a = Nat.digitChar b → a = b := by decide

theorem mapDigitChar_inj (l1 : List Nat) (l2 : List Nat)
    (h1 : ∀ x ∈ l1, x < 10) (h2 : ∀ x ∈ l2, x < 10)
    (h : l1.map Nat.digitChar = l2.map Nat.digitChar) : l1 = l2 := by
  induction l1 generalizing l2 with
  | nil => cases l2 with
    | nil => rfl
    | cons y ys => simp at h
  | cons x xs ih =>
    cases l2 with
    | nil => simp at h
    | cons y ys =>
      simp only [List.map_cons, List.cons.injEq] at h
      have hxy : x = y :=
        digitChar_inj x (h1 x (by simp)) y (h2 y (by simp)) h.1
      subst hxy
      have := ih ys (fun z hz => h1 z (List.mem_cons_of_mem _ hz))
        (fun z hz => h2 z (List.mem_cons_of_mem _ hz)) h.2
      simp [this]

theorem yearString_inj (y y' : Nat) (h : yearString y = yearString y') : y = y' := by
  unfold yearString at h
  have hdata := congrArg String.data h
  simp only [String.data] at hdata
  have hrev : (Nat.digits 10 y).reverse = (Nat.digits 10 y').reverse := by
    apply mapDigitChar_inj _ _ _ _ hdata
    · intro x hx
      exact Nat.digits_lt_base (by norm_num) (List.mem_reverse.mp hx)
    · intro x hx
      exact Nat.digits_lt_base (by norm_num) (List.mem_reverse.mp hx)
  have hdig : Nat.digits 10 y = Nat.digits 10 y' := List.reverse_inj.mp hrev
  have := congrArg (Nat.ofDigits 10) hdig
  simpa [Nat.ofDigits_digits] using this

/-- C10: the theme configuration's footer text is the string
`ORX Travel API ` followed by the decimal year taken at module evaluation
time — so the configuration is not a pure constant: distinct years yield
distinct footer texts — while `useNextSeoProps` returns the constant
record on every call. -/
theorem C10_footer_year (y y' : Nat) (h : y ≠ y') :
    (config y).footer.text = "ORX Travel API " ++ yearString y ∧
    (config y).footer.text ≠ (config y').footer.text ∧
    (config y).useNextSeoProps () = { titleTemplate := "%s - ORX API" } := by
  refine ⟨rfl, ?_, rfl⟩
  intro hEq
  apply h
  apply yearString_inj
  have hdata : ("ORX Travel API ".data) ++ (yearString y).data =
      ("ORX Travel API ".data) ++ (yearString y').data := by
    have := congrArg String.data hEq
    simpa [config, String.data_append] using this
  have := List.append_cancel_left hdata
  exact String.ext this

/-- C10 witness: the years 2024 and 2025 yield distinct footer texts. -/
theorem C10_footer_year_witness :
    (config 2024).footer.text = "ORX Travel API " ++ yearString 2024 ∧
    (config 2024).footer.text ≠ (config 2025).footer.text ∧
    (config 2024).useNextSeoProps () = { titleTemplate := "%s - ORX API" } :=
  C10_footer_year 2024 2025 (by decide)

/- ### Section-chain invariant of the parser -/

/-- The sections of a list start at or after line `ln`, have well-ordered
ranges, and each starts strictly after the previous one ends. -/
def chainFrom : Nat → List DocumentSection → Prop
  | _, [] => True
  | ln, s :: rest =>
    ln ≤ s.startLine ∧ s.startLine ≤ s.endLine ∧ chainFrom (s.endLine + 1) rest

theorem parseSectionsAux_chain (fuel : Nat) (ln : Nat) (lines : List (List Char)) :
    chainFrom ln (parseSectionsAux fuel ln lines) := by
  induction fuel generalizing ln lines with
  | zero => exact trivial
  | succ fuel ih =>
    cases lines with
    | nil => exact trivial
    | cons l ls =>
      simp only [parseSectionsAux]
      by_cases hf : isFenceLine l
      · simp only [hf, if_true]
        exact ⟨Nat.le_refl _, Nat.le_add_right _ _, ih _ _⟩
      · by_cases ht : isTableLine l
        · simp only [hf, ht, if_true, if_false]
          exact ⟨Nat.le_refl _, Nat.le_add_right _ _, ih _ _⟩
        · by_cases hc : isCalloutLine l
          · simp only [hf, ht, hc, if_true, if_false]
            exact ⟨Nat.le_refl _, Nat.le_add_right _ _, ih _ _⟩
          · by_cases hh : isHeadingLine l
            · simp only [hf, ht, hc, hh, if_true, if_false]
              exact ⟨Nat.le_refl _, Nat.le_refl _, ih _ _⟩
            · simp only [hf, ht, hc, hh, if_false]
              exact ⟨Nat.le_refl _, Nat.le_add_right _ _, ih _ _⟩

theorem chainFrom_ge (ln : Nat) (secs : List DocumentSection) (h : chainFrom ln secs) :
    ∀ s ∈ secs, ln ≤ s.startLine ∧ s.startLine ≤ s.endLine := by
  induction secs generalizing ln with
  | nil => intro s hs; cases hs
  | cons a rest ih =>
    obtain ⟨h1, h2, h3⟩ := h
    intro s hs
    rcases List.mem_cons.mp hs with rfl | hmem
    · exact ⟨h1, h2⟩
    · have := ih _ h3 s hmem
      exact ⟨by omega, this.2⟩

theorem chainFrom_pairwise (ln : Nat) (secs : List DocumentSection)
    (h : chainFrom ln secs) :
    secs.Pairwise (fun a b => a.endLine < b.startLine) := by
  induction secs generalizing ln with
  | nil => exact List.Pairwise.nil
  | cons a rest ih =>
    obtain ⟨h1, h2, h3⟩ := h
    refine List.Pairwise.cons ?_ (ih _ h3)
    intro b hb
    have := (chainFrom_ge _ _ h3 b hb).1
    omega

/-- Whether line `n` lies inside the line range of a section. -/
def lineInSection (n : Nat) (s : DocumentSection) : Bool :=
  decide (s.startLine ≤ n) && decide (n ≤ s.endLine)

theorem countP_lineInSection_zero (x ln : Nat) (secs : List DocumentSection)
    (h : chainFrom ln secs) (hx : x < ln) :
    secs.countP (lineInSection x) = 0 := by
  induction secs generalizing ln with
  | nil => rfl
  | cons a rest ih =>
    obtain ⟨h1, h2, h3⟩ := h
    rw [List.countP_cons]
    have hfalse : lineInSection x a = false := by
      simp only [lineInSection, Bool.and_eq_false_iff, decide_eq_false_iff_not]
      left; omega
    simp [hfalse, ih _ h3 (by omega)]

theorem countP_lineInSection_one (x ln : Nat) (secs : List DocumentSection)
    (s : DocumentSection) (h : chainFrom ln secs) (hs : s ∈ secs)
    (hx1 : s.startLine ≤ x) (hx2 : x ≤ s.endLine) :
    secs.countP (lineInSection x) = 1 := by
  induction secs generalizing ln with
  | nil => cases hs
  | cons a rest ih =>
    obtain ⟨h1, h2, h3⟩ := h
    rw [List.countP_cons]
    rcases List.mem_cons.mp hs with heq | hmem
    · have hhead : lineInSection x a = true := by
        simp only [lineInSection, Bool.and_eq_true, decide_eq_true_eq]
        rw [heq] at hx1 hx2
        omega
      have hzero : rest.countP (lineInSection x) = 0 := by
        apply countP_lineInSection_zero x _ rest h3
        rw [heq] at hx2
        omega
      simp [hhead, hzero]
    · have hge := (chainFrom_ge _ _ h3 s hmem).1
      have hhead : lineInSection x a = false := by
        simp only [lineInSection, Bool.and_eq_false_iff, decide_eq_false_iff_not]
        right; omega
      simp [hhead, ih _ h3 hmem]

/- ### Where violations come from -/

theorem mem_applyRule (v : Violation) (r : ConventionRule) (s : DocumentSection)
    (h : v ∈ applyRule r s) :
    v.ruleId = r.id ∧ v.severity = r.severity ∧
      v.startLine = s.startLine ∧ v.endLine = s.endLine := by
  unfold applyRule at h
  split at h
  · obtain ⟨m, hm, rfl⟩ := List.mem_map.mp h
    exact ⟨rfl, rfl, rfl, rfl⟩
  · cases h

theorem mem_rawViolations (v : Violation) (lines : List (List Char))
    (h : v ∈ rawViolations lines) :
    ∃ s ∈ parseSections 1 lines, ∃ r ∈ ruleCatalog,
      v.ruleId = r.id ∧ v.startLine = s.startLine ∧ v.endLine = s.endLine := by
  unfold rawViolations at h
  obtain ⟨s, hs, hv⟩ := List.mem_flatMap.mp h
  unfold checkSection at hv
  obtain ⟨r, hr, hvr⟩ := List.mem_flatMap.mp hv
  obtain ⟨h1, _, h3, h4⟩ := mem_applyRule v r s hvr
  exact ⟨s, hs, r, hr, h1, h3, h4⟩

theorem mem_validate_decodable (v : Violation) (t : String)
    (h : v ∈ validate (.decodable t)) : v ∈ rawViolations (splitLines t.data) :=
  (List.perm_insertionSort vle _).mem_iff.mp h

/-- C1: `validate` is a total function, so it never fails on malformed
input; non-decodable input yields exactly the single `unreadable-input`
violation, and every violation of a decodable text is stamped with the
identifier of a catalog rule — never `unreadable-input`. -/
theorem C1_error_handling :
    validate .unreadable = [unreadableViolation] ∧
    unreadableViolation.ruleId = "unreadable-input" ∧
    ∀ t v, v ∈ validate (.decodable t) →
      v.ruleId ∈ ruleCatalog.map ConventionRule.id ∧ v.ruleId ≠ "unreadable-input" := by
  refine ⟨rfl, rfl, ?_⟩
  intro t v h
  obtain ⟨s, _, r, hr, hid, _, _⟩ :=
    mem_rawViolations v _ (mem_validate_decodable v t h)
  constructor
  · rw [hid]
    exact List.mem_map_of_mem _ hr
  · rw [hid]
    simp only [ruleCatalog, List.mem_cons, List.not_mem_nil, or_false] at hr
    rcases hr with rfl | rfl | rfl | rfl | rfl | rfl | rfl <;> decide


/-- C1 witness: a malformed glossary anchor is reported as a violation whose
identifier names a catalog rule. -/
theorem C1_error_handling_witness :
    (⟨"glossary-link-format", .error, 1, 1,
        "glossary anchor is not a kebab-case slug"⟩ : Violation) ∈
      validate (.decodable "[A](/versions/v1/glossary#Bad)") ∧
    ("glossary-link-format" : String) ∈ ruleCatalog.map ConventionRule.id := by
  have hmem : (⟨"glossary-link-format", .error, 1, 1,
      "glossary anchor is not a kebab-case slug"⟩ : Violation) ∈
      validate (.decodable "[A](/versions/v1/glossary#Bad)") := by decide
  exact ⟨hmem, (C1_error_handling.2.2 "[A](/versions/v1/glossary#Bad)" _ hmem).1⟩

/-- C7: for every input text, the parsed sections have pairwise
non-overlapping line ranges listed in ascending document order, and every
violation produced references exactly one catalog rule (by identifier) and
exactly one section (the one whose range contains its start line). -/
theorem C7_invariants (text : String) :
    (parseSections 1 (splitLines text.data)).Pairwise
      (fun a b => a.endLine < b.startLine) ∧
    ∀ v ∈ validate (.decodable text),
      ruleCatalog.countP (fun r => r.id == v.ruleId) = 1 ∧
      (parseSections 1 (splitLines text.data)).countP
        (lineInSection v.startLine) = 1 := by
  have hchain := parseSectionsAux_chain (splitLines text.data).length 1
    (splitLines text.data)
  constructor
  · exact chainFrom_pairwise _ _ hchain
  · intro v hv
    obtain ⟨s, hs, r, hr, hid, hstart, hend⟩ :=
      mem_rawViolations v _ (mem_validate_decodable v text hv)
    constructor
    · rw [hid]
      simp only [ruleCatalog, List.mem_cons, List.not_mem_nil, or_false] at hr
      rcases hr with rfl | rfl | rfl | rfl | rfl | rfl | rfl <;> decide
    · have hrange := chainFrom_ge _ _ hchain s hs
      exact countP_lineInSection_one v.startLine 1 _ s hchain hs
        (by omega) (by omega)

/-- C7 witness: the invariants at a concrete two-section document with one
violation. -/
theorem C7_invariants_witness :
    (⟨"callout-glyph-content-mismatch", .warning, 2, 2,
        "callout glyph category does not match the callout body"⟩ : Violation) ∈
      validate (.decodable "# Title\n> 💣 boom") ∧
    (parseSections 1 (splitLines ("# Title\n> 💣 boom".data))).Pairwise
      (fun a b => a.endLine < b.startLine) ∧
    ruleCatalog.countP (fun r => r.id ==
      (⟨"callout-glyph-content-mismatch", .warning, 2, 2,
        "callout glyph category does not match the callout body"⟩ : Violation).ruleId) = 1 := by
  have hmem : (⟨"callout-glyph-content-mismatch", .warning, 2, 2,
      "callout glyph category does not match the callout body"⟩ : Violation) ∈
      validate (.decodable "# Title\n> 💣 boom") := by decide
  exact ⟨hmem, (C7_invariants "# Title\n> 💣 boom").1,
    ((C7_invariants "# Title\n> 💣 boom").2 _ hmem).1⟩

/- ### Filtering one rule's output out of a section check -/

theorem filter_applyRule_ne (r : ConventionRule) (s : DocumentSection) (q : String)
    (h : (r.id == q) = false) :
    (applyRule r s).filter (fun v => v.ruleId == q) = [] := by
  unfold applyRule
  split
  · rw [List.filter_map]
    simp [Function.comp_def, h]
  · rfl

theorem filter_applyRule_eq (r : ConventionRule) (s : DocumentSection) (q : String)
    (h : (r.id == q) = true) :
    (applyRule r s).filter (fun v => v.ruleId == q) = applyRule r s := by
  unfold applyRule
  split
  · rw [List.filter_map]
    simp [Function.comp_def, h]
  · rfl

/-- C4: for every table section whose header row matches the error-table
header set, a data row whose Status Code cell is not a valid three-digit
HTTP status yields exactly one violation of rule
`error-table-status-code-format`. -/
theorem C4_error_table_status_code (s : DocumentSection)
    (st : List Char) (hdrCells sepCells : List (List Char))
    (restCells : List (List Char))
    (hk : s.kind = .table)
    (hc : s.content.map splitCells = hdrCells :: sepCells :: [st :: restCells])
    (hhdr : isErrorTableHeader hdrCells = true)
    (hst : isValidStatus st = false) :
    (checkSection s).filter (fun v => v.ruleId == "error-table-status-code-format") =
      [⟨"error-table-status-code-format", .error, s.startLine, s.endLine,
        "status code cell is not a valid http status"⟩] := by
  unfold checkSection ruleCatalog
  simp only [List.flatMap_cons, List.flatMap_nil, List.append_nil, List.filter_append]
  rw [filter_applyRule_ne _ _ _ (by decide), filter_applyRule_ne _ _ _ (by decide),
    filter_applyRule_ne _ _ _ (by decide), filter_applyRule_eq _ _ _ (by decide),
    filter_applyRule_ne _ _ _ (by decide), filter_applyRule_ne _ _ _ (by decide),
    filter_applyRule_ne _ _ _ (by decide)]
  simp [applyRule, hk, statusCheck, tableDataRows, hc, hhdr, hst, statusRowHits]

/-- C4 witness: the spec's example table with Status Code cell `abc`. -/
theorem C4_error_table_status_code_witness :
    (checkSection ⟨.table,
        ["| Status Code | Error | Reason | Reason Code |".data,
         "| --- | --- | --- | --- |".data,
         "| abc | [Validation Error] | Failed Validation | x |".data], 1, 3⟩).filter
      (fun v => v.ruleId == "error-table-status-code-format") =
      [⟨"error-table-status-code-format", .error, 1, 3,
        "status code cell is not a valid http status"⟩] :=
  C4_error_table_status_code
    ⟨.table,
      ["| Status Code | Error | Reason | Reason Code |".data,
       "| --- | --- | --- | --- |".data,
       "| abc | [Validation Error] | Failed Validation | x |".data], 1, 3⟩
    ("abc".data)
    [("Status Code".data), ("Error".data), ("Reason".data), ("Reason Code".data)]
    [("---".data), ("---".data), ("---".data), ("---".data)]
    [("[Validation Error]".data), ("Failed Validation".data), ("x".data)]
    rfl (by decide) (by decide) (by decide)

/-- C5: an inline glossary reference with a kebab-case anchor yields zero
violations, and one with a non-kebab-case anchor yields exactly one
violation of rule `glossary-link-format`: stated generally for every anchor
appended to a versioned glossary url, and end-to-end on the spec's two
example references. -/
theorem C5_glossary_link_format :
    (∀ label anchor,
      glossaryHitsForLink (label, ("/versions/v5/glossary#".data) ++ anchor) =
        if isKebab anchor then [] else ["glossary anchor is not a kebab-case slug"]) ∧
    validate (.decodable "[PassengerInfo](/versions/v5/glossary#passenger-info)") = [] ∧
    validate (.decodable "[PassengerInfo](/versions/v5/glossary#PassengerInfo)") =
      [⟨"glossary-link-format", .error, 1, 1,
        "glossary anchor is not a kebab-case slug"⟩] :=
  ⟨fun _ _ => rfl, by decide, by decide⟩

/-- C6: a callout whose recognized leading glyph has a semantic category
inconsistent with the keyword heuristics on the callout body yields exactly
one violation, and its severity is warning. -/
theorem C6_callout_glyph_mismatch (s : DocumentSection) (g : Char)
    (rest : List Char) (c : CalloutCat)
    (hk : s.kind = .callout)
    (hc : s.content = [('>' :: ' ' :: g :: ' ' :: rest)])
    (hg : glyphCat g = some c)
    (hm : calloutMismatch c (calloutBody s.content) = true) :
    checkSection s =
      [⟨"callout-glyph-content-mismatch", .warning, s.startLine, s.endLine,
        "callout glyph category does not match the callout body"⟩] := by
  have hgs : ¬ g = ' ' := by
    intro h
    rw [h] at hg
    simp [glyphCat] at hg
  rw [hc] at hm
  unfold checkSection ruleCatalog
  simp only [List.flatMap_cons, List.flatMap_nil, List.append_nil]
  simp [applyRule, hk, hc, glyphCheck, mismatchCheck, calloutHead, hgs, hg, hm]

/-- C6 witness: the spec's example — a destructive glyph over a tip-like
body with no destructive keywords — yields exactly one warning. -/
theorem C6_callout_glyph_mismatch_witness :
    checkSection ⟨.callout,
        ["> 💣 You do not need to send all information at once.".data], 1, 1⟩ =
      [⟨"callout-glyph-content-mismatch", .warning, 1, 1,
        "callout glyph category does not match the callout body"⟩] :=
  C6_callout_glyph_mismatch
    ⟨.callout, ["> 💣 You do not need to send all information at once.".data], 1, 1⟩
    '💣' ("You do not need to send all information at once.".data)
    .destructive rfl (by decide) (by decide) (by decide)

end OrxDocs
